import Mathlib

/-!
Shallow embedding of the content-ingestion core of the multilingual-summarizer
repository, together with theorems settling the specification claims.

Strings are modelled as `List Char`; JavaScript string `length`, slicing and
concatenation map to list length, `take`/`drop` and `++`.  Fallible library
calls (PDF structured parse, mammoth DOCX extraction, Papa CSV parse,
`JSON.parse`) are abstracted as `Option`/`Except` inputs to the embedded
functions; a JavaScript `throw` is modelled as `Except.error`, a returned
string as a plain value or `Except.ok`.
-/

set_option maxRecDepth 16384

/- ---------------------------------------------------------------------
   Definitions
--------------------------------------------------------------------- -/

/-- Character class of the JavaScript regexp `\s` (also the class trimmed by
`String.prototype.trim`): ASCII whitespace plus the Unicode space separators,
line separators and the BOM. -/
def isJsSpace (c : Char) : Bool :=
  c = ' ' || c = '\t' || c = '\n' || c = '\r' || c.toNat = 11 || c.toNat = 12 ||
  c.toNat = 0xa0 || c.toNat = 0x1680 || (0x2000 ≤ c.toNat && c.toNat ≤ 0x200a) ||
  c.toNat = 0x2028 || c.toNat = 0x2029 || c.toNat = 0x202f || c.toNat = 0x205f ||
  c.toNat = 0x3000 || c.toNat = 0xfeff

/-- The non-whitespace content of a string: its characters with every
JavaScript-whitespace character removed.  Two strings with the same `nsp`
agree "modulo whitespace". -/
def nsp (l : List Char) : List Char := l.filter (fun c => !isJsSpace c)

/-- JavaScript `String.prototype.trim`: remove leading and trailing
whitespace. -/
def jsTrim (l : List Char) : List Char :=
  ((l.dropWhile isJsSpace).reverse.dropWhile isJsSpace).reverse

mutual

/-- Scanner for `content.split(/\n\n+/)` (localStorage.ts line 136).  `acc`
holds the reversed characters of the piece being built.  A run of two or more
newlines ends the current piece; a single newline stays inside the piece. -/
def splitParasAux : List Char → List Char → List (List Char)
  | [], acc => [acc.reverse]
  | '\n' :: '\n' :: rest, acc => acc.reverse :: splitParasSkip rest
  | c :: rest, acc => splitParasAux rest (c :: acc)

/-- After a `\n\n` match, consume the remaining newlines of the separator run
(the `+` of `/\n\n+/`), then start the next piece. -/
def splitParasSkip : List Char → List (List Char)
  | [] => [[]]
  | '\n' :: rest => splitParasSkip rest
  | c :: rest => splitParasAux rest [c]

end

/-- JavaScript `content.split(/\n\n+/)`: split on maximal runs of at least two
newlines (localStorage.ts line 136). -/
def splitParas (s : List Char) : List (List Char) := splitParasAux s []

/-- Whether the previous character (head of the reversed accumulator) is one of
`.`, `!`, `?` — the lookbehind class of `/(?<=[.!?])\s+/`. -/
def sentPunctHead : List Char → Bool
  | [] => false
  | p :: _ => p = '.' || p = '!' || p = '?'

mutual

/-- Scanner for `paragraph.split(/(?<=[.!?])\s+/)` (localStorage.ts line 151):
a maximal whitespace run immediately preceded by `.`, `!` or `?` separates
sentences. -/
def splitSentAux : List Char → List Char → List (List Char)
  | [], acc => [acc.reverse]
  | c :: rest, acc =>
    if isJsSpace c && sentPunctHead acc then acc.reverse :: splitSentSkip rest
    else splitSentAux rest (c :: acc)

/-- Consume the rest of a whitespace separator run (the `+` of `\s+`), then
start the next sentence. -/
def splitSentSkip : List Char → List (List Char)
  | [] => [[]]
  | c :: rest => if isJsSpace c then splitSentSkip rest else splitSentAux rest [c]

end

/-- JavaScript `paragraph.split(/(?<=[.!?])\s+/)` (localStorage.ts line 151). -/
def splitSent (s : List Char) : List (List Char) := splitSentAux s []

/-- Body of the word-level loop of `chunkContent` (localStorage.ts lines
165-169): `while (i < sentence.length) { push(sentence.slice(i, i + max)); i
+= max }`.  The fuel argument only bounds the iteration count so that the
recursion is structural; `hardSlice` below supplies fuel `s.length`, which for
`1 ≤ m` is enough for the loop to run to completion exactly as in the
source. -/
def hardSliceAux (m : Nat) : Nat → List Char → List (List Char)
  | _, [] => []
  | 0, _ :: _ => []
  | fuel + 1, c :: rest => ((c :: rest).take m) :: hardSliceAux m fuel ((c :: rest).drop m)

/-- Fixed-width slicing of an oversized sentence into pieces of `m` characters
(localStorage.ts lines 165-169). -/
def hardSlice (s : List Char) (m : Nat) : List (List Char) := hardSliceAux m s.length s

/-- `chunks.push(x)` guarded by `if (x.length > 0)`, as done for
`currentChunk`/`sentenceChunk` in `chunkContent`. -/
def pushIfNonempty (chunks : List (List Char)) (c : List Char) : List (List Char) :=
  if c.length > 0 then chunks ++ [c] else chunks

/-- One iteration of the sentence loop of `chunkContent` (localStorage.ts
lines 154-178).  The state is `(chunks, sentenceChunk)`. -/
def procSent (m : Nat) (st : List (List Char) × List Char) (sentence : List Char) :
    List (List Char) × List Char :=
  if st.2.length + sentence.length + 1 > m then
    if sentence.length > m then
      (pushIfNonempty st.1 st.2 ++ hardSlice sentence m, [])
    else
      (st.1 ++ [st.2], sentence ++ [' '])
  else
    (st.1, st.2 ++ (sentence ++ [' ']))

/-- One iteration of the paragraph loop of `chunkContent` (localStorage.ts
lines 139-193).  The state is `(chunks, currentChunk)`; an oversized paragraph
is split into sentences and processed by the sentence loop, and afterwards
`currentChunk` is empty. -/
def procPara (m : Nat) (st : List (List Char) × List Char) (para : List Char) :
    List (List Char) × List Char :=
  if st.2.length + para.length + 2 > m then
    if para.length > m then
      let r := (splitSent para).foldl (procSent m) (pushIfNonempty st.1 st.2, [])
      (pushIfNonempty r.1 r.2, [])
    else
      (st.1 ++ [st.2], para ++ ['\n', '\n'])
  else
    (st.1, st.2 ++ (para ++ ['\n', '\n']))

/-- `chunkContent(content, maxChunkSize)` (localStorage.ts lines 127-201):
return the content whole when it fits, otherwise pack paragraphs greedily,
splitting oversized paragraphs by sentences and oversized sentences by fixed
width, and finally push the leftover `currentChunk` when nonempty. -/
def chunkContent (content : List Char) (maxChunkSize : Nat) : List (List Char) :=
  if content.length ≤ maxChunkSize then [content]
  else
    let r := (splitParas content).foldl (procPara maxChunkSize) ([], [])
    pushIfNonempty r.1 r.2

/-- Sample-selection step of `detectLanguage` (languageDetection source, lines
130-145): texts over 2000 characters are sampled from the start, a window
centred at the midpoint, and the end; texts over 1000 characters are truncated
to the first 1000; shorter texts are used whole.  JavaScript
`slice(a, b)`/`slice(a)` with the in-range arguments used there is
`drop`/`take`. -/
def detectLanguageSample (textString : List Char) : List Char :=
  let textLength := textString.length
  if textLength > 2000 then
    let startSample := textString.take 600
    let middleStart := textLength / 2 - 300
    let middleSample := (textString.drop middleStart).take 600
    let endSample := textString.drop (textLength - 600)
    startSample ++ ' ' :: (middleSample ++ ' ' :: endSample)
  else if textLength > 1000 then textString.take 1000
  else textString

/-- Outcome of processing one PDF page inside the page loop of
`extractTextFromPdf` (pdfUtils.ts lines 75-130).  `success items` holds the
`str` fields of the text items returned by `getTextContent`; `failure fb`
means the primary extraction threw or timed out, with `fb` the items returned
by the simpler retry (`disableCombineTextItems: true`), or `none` when that
retry itself failed. -/
inductive PageOutcome : Type where
  | success (items : List (List Char)) : PageOutcome
  | failure (fb : Option (List (List Char))) : PageOutcome

/-- JavaScript `items.map(item => item.str).join(' ')`. -/
def joinSpace (items : List (List Char)) : List Char := List.intercalate [' '] items

/-- Text appended after the placeholder by the simpler retry of a failed page
(pdfUtils.ts lines 104-128): when the retry returns items whose joined text is
truthy and longer than 20 characters, a `[Recovered text from page N]` block;
when it yields 20 characters or fewer, or itself fails (`none`), nothing. -/
def pdfRetryRender (pageNum : Nat) : Option (List (List Char)) → List Char
  | some items =>
      let simplePageText := joinSpace items
      if simplePageText ≠ [] ∧ simplePageText.length > 20 then
        "[Recovered text from page ".toList ++ (Nat.repr pageNum).toList ++
          "]\n".toList ++ simplePageText ++ "\n\n".toList
      else []
  | none => []

/-- Text appended to `extractedText` for one page by the loop body of
`extractTextFromPdf` (pdfUtils.ts lines 75-130): a successful page contributes
an optional `[Page N]` marker and its joined text; a failed page contributes
the `[Error extracting text from page N]` placeholder, followed by whatever
the simpler retry contributes. -/
def pdfPageRender (numPages pageNum : Nat) : PageOutcome → List Char
  | .success items =>
      (if numPages > 1 then
        "[Page ".toList ++ (Nat.repr pageNum).toList ++ "]\n".toList
      else []) ++ joinSpace items ++ "\n\n".toList
  | .failure fb =>
      "[Error extracting text from page ".toList ++ (Nat.repr pageNum).toList ++
        "]\n\n".toList ++
      pdfRetryRender pageNum fb

/-- The page loop of `extractTextFromPdf` (pdfUtils.ts lines 75-130), with
`start` the number of the first page processed (1 in the source): the
concatenation of the per-page contributions in page order. -/
def pdfPagesText (numPages start : Nat) : List PageOutcome → List Char
  | [] => []
  | p :: rest => pdfPageRender numPages start p ++ pdfPagesText numPages (start + 1) rest

/-- Note appended to a successful fallback extraction in the top-level catch of
`extractTextFromPdf` (pdfUtils.ts line 163). -/
def pdfFallbackNote : List Char :=
  "\n\n[Note: Text extracted using fallback method due to error with main PDF processor]".toList

/-- Descriptive failure text returned when both the structured parse and the
fallback fail (pdfUtils.ts line 170). -/
def pdfUnableMsg (errMsg : List Char) : List Char :=
  "Unable to extract text from this PDF document. Error: ".toList ++ errMsg ++
  "\n\nThis may be because:\n- The PDF contains scanned images without OCR text\n- The PDF has security restrictions preventing text extraction\n- The PDF uses uncommon font encodings\n\nPlease try a different file format or copy the text manually.".toList

/-- Top-level catch block of `extractTextFromPdf` (pdfUtils.ts lines 156-171):
when the structured parse throws with message `errMsg`, the byte-scan fallback
result `basicText` is returned (with an explanatory note appended) whenever it
is truthy and its trimmed length exceeds 50; otherwise a descriptive error
text is returned.  Either way the function returns a string — it never
re-raises. -/
def extractTextFromPdfOnError (errMsg basicText : List Char) : List Char :=
  if basicText ≠ [] ∧ 50 < (jsTrim basicText).length then basicText ++ pdfFallbackNote
  else pdfUnableMsg errMsg

/-- Maximum file size in bytes (fileProcessors.ts line 13). -/
def MAX_FILE_SIZE : Nat := 50 * 1024 * 1024

/-- The metadata of an uploaded `File` used by the dispatcher: declared size,
declared MIME type (`file.type || ''`) and file name. -/
structure FileMeta : Type where
  size : Nat
  mimeType : List Char
  name : List Char

/-- ASCII case of JavaScript `toLowerCase`, sufficient for the file names the
dispatcher compares against its ASCII extension table. -/
def toLowerAscii (l : List Char) : List Char :=
  l.map (fun c => if 'A' ≤ c && c ≤ 'Z' then Char.ofNat (c.toNat + 32) else c)

/-- JavaScript `fileName.toLowerCase().split('.').pop() || ''`
(fileProcessors.ts lines 30-31). -/
def fileExtension (name : List Char) : List Char :=
  (((toLowerAscii name).splitOn '.').getLastD [])

/-- The extractor families of the dispatch chain of `extractTextFromFile`
(fileProcessors.ts lines 35-139), in source order. -/
inductive Route : Type where
  | pdf | docx | doc | plainText | html | csv | excel | json | fallbackText | unsupported
deriving DecidableEq

/-- The MIME-type/extension dispatch chain of `extractTextFromFile`
(fileProcessors.ts lines 35-139), first match wins. -/
def selectRoute (fileType ext : List Char) : Route :=
  if fileType = "application/pdf".toList ∨ ext = "pdf".toList then .pdf
  else if fileType = "application/vnd.openxmlformats-officedocument.wordprocessingml.document".toList
      ∨ ext = "docx".toList then .docx
  else if fileType = "application/msword".toList ∨ ext = "doc".toList then .doc
  else if fileType = "text/plain".toList ∨ ext = "txt".toList ∨ ext = "md".toList
      ∨ ext = "rtf".toList then .plainText
  else if fileType = "text/html".toList ∨ ext = "html".toList ∨ ext = "htm".toList then .html
  else if fileType = "text/csv".toList ∨ ext = "csv".toList then .csv
  else if fileType = "application/vnd.openxmlformats-officedocument.spreadsheetml.sheet".toList
      ∨ fileType = "application/vnd.ms-excel".toList
      ∨ ext = "xlsx".toList ∨ ext = "xls".toList then .excel
  else if fileType = "application/json".toList ∨ ext = "json".toList then .json
  else if fileType = [] ∨ fileType.take 5 = "text/".toList then .fallbackText
  else .unsupported

/-- Result of the front of `extractTextFromFile` (fileProcessors.ts lines
22-139): either the size-validation throw of lines 24-26, or the extractor
family the file is dispatched to. -/
inductive DispatchStep : Type where
  | oversizeError (msg : List Char) : DispatchStep
  | routed (r : Route) : DispatchStep
deriving DecidableEq

/-- Size validation and format dispatch of `extractTextFromFile`
(fileProcessors.ts lines 22-139), with the per-format extraction itself
abstracted into the chosen `Route`. -/
def extractTextFromFileRoute (f : FileMeta) : DispatchStep :=
  if f.size > MAX_FILE_SIZE then
    .oversizeError "File size exceeds maximum allowed size (50MB)".toList
  else .routed (selectRoute f.mimeType (fileExtension f.name))

/-- Parsed JSON values, as produced by `JSON.parse`. -/
inductive Json : Type where
  | null : Json
  | bool : Bool → Json
  | num : Int → Json
  | str : List Char → Json
  | arr : List Json → Json
  | obj : List (List Char × Json) → Json

/-- Whether `typeof v === 'object'` holds in JavaScript; note that this is
true for `null`. -/
def jsTypeofObject : Json → Bool
  | .null => true
  | .arr _ => true
  | .obj _ => true
  | _ => false

/-- Whether the value is `null`. -/
def jsonIsNull : Json → Bool
  | .null => true
  | _ => false

/-- Opening brace character, written via its code point. -/
def braceL : Char := Char.ofNat 123

/-- Closing brace character, written via its code point. -/
def braceR : Char := Char.ofNat 125

mutual

/-- JavaScript `JSON.stringify(v)` for the value model (default compact form;
string escaping is omitted, which agrees with the source for strings without
quote, backslash or control characters). -/
def jsonStringify : Json → List Char
  | .null => "null".toList
  | .bool true => "true".toList
  | .bool false => "false".toList
  | .num n => (Int.repr n).toList
  | .str s => '"' :: s ++ ['"']
  | .arr xs => '[' :: jsonStringifyList xs ++ [']']
  | .obj fs => braceL :: jsonStringifyFields fs ++ [braceR]

/-- Elements of an array rendered by `JSON.stringify`, comma separated. -/
def jsonStringifyList : List Json → List Char
  | [] => []
  | [v] => jsonStringify v
  | v :: w :: rest => jsonStringify v ++ ',' :: jsonStringifyList (w :: rest)

/-- Fields of an object rendered by `JSON.stringify`, comma separated. -/
def jsonStringifyFields : List (List Char × Json) → List Char
  | [] => []
  | [(k, v)] => '"' :: k ++ '"' :: ':' :: jsonStringify v
  | (k, v) :: f :: rest =>
      '"' :: k ++ '"' :: ':' :: jsonStringify v ++ ',' :: jsonStringifyFields (f :: rest)

/-- JavaScript `String(v)` conversion for the value model.  In
`extractFromJson` it is only reached for values whose `typeof` is not
`'object'` together with `null` items, but arrays and objects follow the
JavaScript conversion (`join(',')`, `"[object Object]"`) for completeness. -/
def jsToString : Json → List Char
  | .null => "null".toList
  | .bool true => "true".toList
  | .bool false => "false".toList
  | .num n => (Int.repr n).toList
  | .str s => s
  | .arr xs => jsToStringArrayJoin xs
  | .obj _ => "[object Object]".toList

/-- JavaScript `Array.prototype.join(',')` as used by `String(array)`:
elements converted with `String`, except `null` which joins as the empty
string. -/
def jsToStringArrayJoin : List Json → List Char
  | [] => []
  | [.null] => []
  | [v] => jsToString v
  | .null :: w :: rest => ',' :: jsToStringArrayJoin (w :: rest)
  | v :: w :: rest => jsToString v ++ ',' :: jsToStringArrayJoin (w :: rest)

end

/-- `Object.entries(v)` for an object or array value: an object yields its
fields in order, an array yields index-keyed entries. -/
def jsonEntries : Json → List (List Char × Json)
  | .obj fs => fs
  | .arr xs => jsonArrayEntries 0 xs
  | _ => []
where
  /-- Index-keyed entries of an array, starting at index `i`. -/
  jsonArrayEntries : Nat → List Json → List (List Char × Json)
  | _, [] => []
  | i, v :: rest => ((Nat.repr i).toList, v) :: jsonArrayEntries (i + 1) rest

/-- One `key: value` line of an expanded array item (fileProcessors.ts lines
348-351): object-typed values (including `null`) are serialized and truncated
to 100 characters, other values use `String`; the ellipsis marker is appended
when the resulting `valueStr` still exceeds 100 characters. -/
def jsonItemFieldLine (key : List Char) (value : Json) : List Char :=
  let valueStr := if jsTypeofObject value then (jsonStringify value).take 100
                  else jsToString value
  "  ".toList ++ key ++ ": ".toList ++ valueStr ++
    (if valueStr.length > 100 then "...".toList else []) ++ ['\n']

/-- The text block of one array item (fileProcessors.ts lines 345-356):
`Item N:` followed by its expanded entries for object-typed non-null items,
or its `String` conversion otherwise, then a blank line. -/
def renderJsonItem (idx : Nat) (item : Json) : List Char :=
  "Item ".toList ++ (Nat.repr idx).toList ++ ":\n".toList ++
  (if jsTypeofObject item && !jsonIsNull item then
    ((jsonEntries item).map (fun kv => jsonItemFieldLine kv.1 kv.2)).flatten
   else "  ".toList ++ jsToString item ++ ['\n']) ++ ['\n']

/-- The `displayItems.forEach` loop of the array branch (fileProcessors.ts
lines 344-356), rendering items with 1-based display indices starting at
`idx`. -/
def renderJsonItems (idx : Nat) : List Json → List Char
  | [] => []
  | v :: rest => renderJsonItem idx v ++ renderJsonItems (idx + 1) rest

/-- One `key: value` line of the object-root branch (fileProcessors.ts lines
368-374): object-typed non-null values are serialized and truncated to 100
characters with an ellipsis marker when the full serialization exceeds 100
characters; other values are interpolated with `String`. -/
def jsonObjFieldLine (key : List Char) (value : Json) : List Char :=
  if jsTypeofObject value && !jsonIsNull value then
    key ++ ": ".toList ++ (jsonStringify value).take 100 ++
      (if (jsonStringify value).length > 100 then "...".toList else []) ++ ['\n']
  else key ++ ": ".toList ++ jsToString value ++ ['\n']

/-- Shape-directed formatting of a parsed JSON value (fileProcessors.ts lines
339-380): an array root lists its first 5 items and a `more items` line when
longer; an object root lists its top-level fields; a primitive root is
pretty-printed (`JSON.stringify(data, null, 2)` agrees with the compact form
on the primitives that reach this branch). -/
def formatJsonData : Json → List Char
  | .arr data =>
      "JSON Array with ".toList ++ (Nat.repr data.length).toList ++ " items:\n\n".toList ++
      renderJsonItems 1 (data.take 5) ++
      (if data.length > 5 then
        "... and ".toList ++ (Nat.repr (data.length - 5)).toList ++ " more items\n".toList
       else [])
  | .obj fields =>
      "JSON Object:\n\n".toList ++
      (fields.map (fun kv => jsonObjFieldLine kv.1 kv.2)).flatten
  | data => "JSON Content: ".toList ++ jsonStringify data

/-- `extractFromJson` (fileProcessors.ts lines 331-388) with the `JSON.parse`
call abstracted: `none` models a `SyntaxError` from `JSON.parse`, for which
the catch block RETURNS a descriptive string; a parsed value is formatted by
shape.  The function never throws. -/
def extractFromJson (parsed : Option Json) : List Char :=
  match parsed with
  | some data => formatJsonData data
  | none => "The JSON file contains syntax errors and could not be parsed.".toList

/-- The JSON arm of the dispatcher (fileProcessors.ts line 121): the string
produced by `extractFromJson` is returned as a successful extraction result,
so a parse failure still yields `Except.ok`. -/
def extractJsonResult (parsed : Option Json) : Except (List Char) (List Char) :=
  .ok (extractFromJson parsed)

/-- `extractFromDocx` (fileProcessors.ts lines 167-176) with the
`mammoth.extractRawText` call abstracted: `some value` is the extracted raw
text, `none` models the library throwing, which the catch block converts into
a thrown typed error with a user-facing message. -/
def extractFromDocx (mammothResult : Option (List Char)) :
    Except (List Char) (List Char × List Char) :=
  match mammothResult with
  | some value => .ok (value, "DOCX".toList)
  | none =>
    .error "Failed to extract text from DOCX file. The file may be corrupted or incompatible.".toList

/-- The parse results handed to the `complete` callback of `Papa.parse`
(fileProcessors.ts lines 276-326): the inferred header fields and the data
rows as key-value pairs. -/
structure CsvResults : Type where
  fields : List (List Char)
  data : List (List (List Char × List Char))

/-- The `Row N:` blocks of the CSV report (fileProcessors.ts lines 299-306),
with 1-based row numbers starting at `i`. -/
def csvRows : Nat → List (List (List Char × List Char)) → List Char
  | _, [] => []
  | i, row :: rest =>
      "Row ".toList ++ (Nat.repr i).toList ++ ":\n".toList ++
      (row.map (fun kv => "  ".toList ++ kv.1 ++ ": ".toList ++ kv.2 ++ ['\n'])).flatten ++
      "\n".toList ++ csvRows (i + 1) rest

/-- The CSV report built by the `complete` callback (fileProcessors.ts lines
285-314): header list, record count, the first 10 rows, and a truncation
notice when more rows exist. -/
def formatCsvResults (results : CsvResults) : List Char :=
  (if results.fields.length > 0 then
    "Headers: ".toList ++ List.intercalate ", ".toList results.fields ++ "\n\n".toList
   else []) ++
  (if results.data.length > 0 then
    (Nat.repr results.data.length).toList ++ " records found in CSV file:\n\n".toList ++
    csvRows 1 (results.data.take 10) ++
    (if results.data.length > 10 then
      "... and ".toList ++ (Nat.repr (results.data.length - 10)).toList ++ " more rows\n".toList
     else [])
   else "No data rows found in CSV file.".toList)

/-- `extractFromCsv` (fileProcessors.ts lines 274-328) with the `Papa.parse`
callback outcome abstracted: a whole-parse failure with message `msg` invokes
the `error` callback, which rejects with a typed error; a successful parse
resolves with the formatted report. -/
def extractFromCsv (papaOutcome : Except (List Char) CsvResults) :
    Except (List Char) (List Char × List Char) :=
  match papaOutcome with
  | .ok results => .ok (formatCsvResults results, "CSV".toList)
  | .error msg => .error ("Failed to parse CSV file: ".toList ++ msg)

/-- A seven-object JSON array used as the concrete instance for the
array-of-seven claims. -/
def jsonSevenDemo : List Json :=
  [.obj [("a".toList, .num 1)], .obj [("a".toList, .num 2)],
   .obj [("a".toList, .num 3)], .obj [("a".toList, .num 4)],
   .obj [("a".toList, .num 5)], .obj [("a".toList, .num 6)],
   .obj [("a".toList, .num 7)]]

/- ---------------------------------------------------------------------
   Helper lemmas
--------------------------------------------------------------------- -/

theorem nsp_nil : nsp [] = [] := rfl

theorem nsp_append (a b : List Char) : nsp (a ++ b) = nsp a ++ nsp b := by
  simp [nsp]

theorem nsp_cons_space {c : Char} (h : isJsSpace c = true) (l : List Char) :
    nsp (c :: l) = nsp l := by
  simp [nsp, List.filter_cons, h]

theorem nsp_cons_nonspace {c : Char} (h : isJsSpace c = false) (l : List Char) :
    nsp (c :: l) = c :: nsp l := by
  simp [nsp, List.filter_cons, h]

theorem nsp_rev_cons (c : Char) (acc : List Char) :
    nsp ((c :: acc).reverse) = nsp acc.reverse ++ nsp [c] := by
  rw [List.reverse_cons, nsp_append]

theorem nsp_single_append (c : Char) (l : List Char) :
    nsp [c] ++ nsp l = nsp (c :: l) := by
  rw [show (c :: l) = [c] ++ l from rfl, nsp_append]

theorem splitParasAux_nil (acc : List Char) : splitParasAux [] acc = [acc.reverse] := rfl

theorem splitParasAux_single (c : Char) (acc : List Char) :
    splitParasAux [c] acc = [(c :: acc).reverse] := by
  conv_lhs => unfold splitParasAux
  split
  · rename_i heq; exact absurd heq (by simp)
  · rename_i heq; exact absurd heq (by simp)
  · rename_i c' rest hne heq
    injection heq with e1 e2
    subst e1; subst e2
    rfl

theorem splitParasAux_two_nl (rest acc : List Char) :
    splitParasAux ('\n' :: '\n' :: rest) acc = acc.reverse :: splitParasSkip rest := rfl

theorem splitParasAux_other (c1 c2 : Char) (t acc : List Char)
    (h : ¬(c1 = '\n' ∧ c2 = '\n')) :
    splitParasAux (c1 :: c2 :: t) acc = splitParasAux (c2 :: t) (c1 :: acc) := by
  conv_lhs => unfold splitParasAux
  split
  · rename_i heq; exact absurd heq (by simp)
  · rename_i rest heq
    injection heq with e1 e2
    injection e2 with e2 _
    exact absurd ⟨e1, e2⟩ h
  · rename_i c' rest hne heq
    injection heq with e1 e2
    subst e1; subst e2
    rfl

theorem splitParasSkip_nil : splitParasSkip [] = [[]] := rfl

theorem splitParasSkip_nl (rest : List Char) :
    splitParasSkip ('\n' :: rest) = splitParasSkip rest := rfl

theorem splitParasSkip_other (c : Char) (rest : List Char) (h : c ≠ '\n') :
    splitParasSkip (c :: rest) = splitParasAux rest [c] := by
  conv_lhs => unfold splitParasSkip
  split
  · rename_i heq; exact absurd heq (by simp)
  · rename_i rest' heq
    injection heq with e1 _
    exact absurd e1 h
  · rename_i c' rest' hne heq
    injection heq with e1 e2
    subst e1; subst e2
    rfl

theorem splitSentAux_nil (acc : List Char) : splitSentAux [] acc = [acc.reverse] := rfl

theorem splitSentAux_cons (c : Char) (rest acc : List Char) :
    splitSentAux (c :: rest) acc =
      if isJsSpace c && sentPunctHead acc then acc.reverse :: splitSentSkip rest
      else splitSentAux rest (c :: acc) := rfl

theorem splitSentSkip_nil : splitSentSkip [] = [[]] := rfl

theorem splitSentSkip_cons (c : Char) (rest : List Char) :
    splitSentSkip (c :: rest) =
      if isJsSpace c then splitSentSkip rest else splitSentAux rest [c] := rfl

/-- Joint induction: the splitters of `splitParas` drop only newline runs, so
the non-whitespace content of the pieces is that of the input. -/
theorem splitParasAux_skip_nsp (n : Nat) :
    (∀ s acc : List Char, s.length ≤ n →
      nsp (splitParasAux s acc).flatten = nsp acc.reverse ++ nsp s) ∧
    (∀ s : List Char, s.length ≤ n → nsp (splitParasSkip s).flatten = nsp s) := by
  induction n with
  | zero =>
    constructor
    · intro s acc hs
      have hnil : s = [] := List.eq_nil_of_length_eq_zero (Nat.le_zero.mp hs)
      subst hnil
      simp [splitParasAux_nil, nsp_nil]
    · intro s hs
      have hnil : s = [] := List.eq_nil_of_length_eq_zero (Nat.le_zero.mp hs)
      subst hnil
      simp [splitParasSkip_nil, nsp_nil]
  | succ n ih =>
    constructor
    · intro s acc hs
      match s with
      | [] => simp [splitParasAux_nil, nsp_nil]
      | [c] =>
        rw [splitParasAux_single]
        simp only [List.flatten_cons, List.flatten_nil, List.append_nil]
        rw [nsp_rev_cons]
      | c1 :: c2 :: t =>
        simp only [List.length_cons] at hs
        by_cases hc : c1 = '\n' ∧ c2 = '\n'
        · obtain ⟨h1, h2⟩ := hc
          subst h1; subst h2
          rw [splitParasAux_two_nl]
          simp only [List.flatten_cons, nsp_append]
          rw [ih.2 t (by omega)]
          rw [nsp_cons_space (by decide), nsp_cons_space (by decide)]
        · rw [splitParasAux_other c1 c2 t acc hc]
          rw [ih.1 (c2 :: t) (c1 :: acc) (by simp; omega)]
          rw [nsp_rev_cons, List.append_assoc, nsp_single_append]
    · intro s hs
      match s with
      | [] => simp [splitParasSkip_nil, nsp_nil]
      | c :: rest =>
        simp only [List.length_cons] at hs
        by_cases hc : c = '\n'
        · subst hc
          rw [splitParasSkip_nl, ih.2 rest (by omega)]
          rw [nsp_cons_space (by decide)]
        · rw [splitParasSkip_other c rest hc]
          rw [ih.1 rest [c] (by omega)]
          rw [show nsp ([c] : List Char).reverse = nsp [c] from by simp]
          rw [nsp_single_append]

/-- `content.split(/\n\n+/)` preserves non-whitespace content. -/
theorem splitParas_nsp (s : List Char) : nsp (splitParas s).flatten = nsp s := by
  have h := (splitParasAux_skip_nsp s.length).1 s [] le_rfl
  simpa [splitParas, nsp_nil] using h

/-- Joint induction: the splitters of `splitSent` drop only whitespace runs,
so the non-whitespace content of the pieces is that of the input. -/
theorem splitSentAux_skip_nsp (n : Nat) :
    (∀ s acc : List Char, s.length ≤ n →
      nsp (splitSentAux s acc).flatten = nsp acc.reverse ++ nsp s) ∧
    (∀ s : List Char, s.length ≤ n → nsp (splitSentSkip s).flatten = nsp s) := by
  induction n with
  | zero =>
    constructor
    · intro s acc hs
      have hnil : s = [] := List.eq_nil_of_length_eq_zero (Nat.le_zero.mp hs)
      subst hnil
      simp [splitSentAux_nil, nsp_nil]
    · intro s hs
      have hnil : s = [] := List.eq_nil_of_length_eq_zero (Nat.le_zero.mp hs)
      subst hnil
      simp [splitSentSkip_nil, nsp_nil]
  | succ n ih =>
    constructor
    · intro s acc hs
      match s with
      | [] => simp [splitSentAux_nil, nsp_nil]
      | c :: rest =>
        simp only [List.length_cons] at hs
        rw [splitSentAux_cons]
        split
        · rename_i hcond
          have hsp : isJsSpace c = true := by
            cases h : isJsSpace c
            · rw [h] at hcond; simp at hcond
            · rfl
          simp only [List.flatten_cons, nsp_append]
          rw [ih.2 rest (by omega)]
          rw [nsp_cons_space hsp]
        · rw [ih.1 rest (c :: acc) (by omega)]
          rw [nsp_rev_cons, List.append_assoc, nsp_single_append]
    · intro s hs
      match s with
      | [] => simp [splitSentSkip_nil, nsp_nil]
      | c :: rest =>
        simp only [List.length_cons] at hs
        rw [splitSentSkip_cons]
        by_cases hc : isJsSpace c = true
        · rw [if_pos hc, ih.2 rest (by omega), nsp_cons_space hc]
        · rw [if_neg hc]
          rw [ih.1 rest [c] (by omega)]
          rw [show nsp ([c] : List Char).reverse = nsp [c] from by simp]
          rw [nsp_single_append]

/-- `paragraph.split(/(?<=[.!?])\s+/)` preserves non-whitespace content. -/
theorem splitSent_nsp (s : List Char) : nsp (splitSent s).flatten = nsp s := by
  have h := (splitSentAux_skip_nsp s.length).1 s [] le_rfl
  simpa [splitSent, nsp_nil] using h

/-- Joint induction: the splitters of `splitParas` always return at least one
piece. -/
theorem splitParasAux_skip_ne_nil (n : Nat) :
    (∀ s acc : List Char, s.length ≤ n → splitParasAux s acc ≠ []) ∧
    (∀ s : List Char, s.length ≤ n → splitParasSkip s ≠ []) := by
  induction n with
  | zero =>
    constructor
    · intro s acc hs
      have hnil : s = [] := List.eq_nil_of_length_eq_zero (Nat.le_zero.mp hs)
      subst hnil
      simp [splitParasAux_nil]
    · intro s hs
      have hnil : s = [] := List.eq_nil_of_length_eq_zero (Nat.le_zero.mp hs)
      subst hnil
      simp [splitParasSkip_nil]
  | succ n ih =>
    constructor
    · intro s acc hs
      match s with
      | [] => simp [splitParasAux_nil]
      | [c] => simp [splitParasAux_single]
      | c1 :: c2 :: t =>
        simp only [List.length_cons] at hs
        by_cases hc : c1 = '\n' ∧ c2 = '\n'
        · obtain ⟨h1, h2⟩ := hc
          subst h1; subst h2
          simp [splitParasAux_two_nl]
        · rw [splitParasAux_other c1 c2 t acc hc]
          exact ih.1 (c2 :: t) (c1 :: acc) (by simp; omega)
    · intro s hs
      match s with
      | [] => simp [splitParasSkip_nil]
      | c :: rest =>
        simp only [List.length_cons] at hs
        by_cases hc : c = '\n'
        · subst hc
          rw [splitParasSkip_nl]
          exact ih.2 rest (by omega)
        · rw [splitParasSkip_other c rest hc]
          exact ih.1 rest [c] (by omega)

/-- `splitParas` never returns an empty list of pieces. -/
theorem splitParas_ne_nil (s : List Char) : splitParas s ≠ [] :=
  (splitParasAux_skip_ne_nil s.length).1 s [] le_rfl

/-- Joint induction: the splitters of `splitSent` always return at least one
piece. -/
theorem splitSentAux_skip_ne_nil (n : Nat) :
    (∀ s acc : List Char, s.length ≤ n → splitSentAux s acc ≠ []) ∧
    (∀ s : List Char, s.length ≤ n → splitSentSkip s ≠ []) := by
  induction n with
  | zero =>
    constructor
    · intro s acc hs
      have hnil : s = [] := List.eq_nil_of_length_eq_zero (Nat.le_zero.mp hs)
      subst hnil
      simp [splitSentAux_nil]
    · intro s hs
      have hnil : s = [] := List.eq_nil_of_length_eq_zero (Nat.le_zero.mp hs)
      subst hnil
      simp [splitSentSkip_nil]
  | succ n ih =>
    constructor
    · intro s acc hs
      match s with
      | [] => simp [splitSentAux_nil]
      | c :: rest =>
        simp only [List.length_cons] at hs
        rw [splitSentAux_cons]
        split
        · simp
        · exact ih.1 rest (c :: acc) (by omega)
    · intro s hs
      match s with
      | [] => simp [splitSentSkip_nil]
      | c :: rest =>
        simp only [List.length_cons] at hs
        rw [splitSentSkip_cons]
        by_cases hc : isJsSpace c = true
        · rw [if_pos hc]
          exact ih.2 rest (by omega)
        · rw [if_neg hc]
          exact ih.1 rest [c] (by omega)

/-- `splitSent` never returns an empty list of pieces. -/
theorem splitSent_ne_nil (s : List Char) : splitSent s ≠ [] :=
  (splitSentAux_skip_ne_nil s.length).1 s [] le_rfl

/-- With enough fuel and a positive width, the hard slices reassemble to the
input sentence. -/
theorem hardSliceAux_flatten (m : Nat) (hm : 0 < m) :
    ∀ fuel s, s.length ≤ fuel → (hardSliceAux m fuel s).flatten = s := by
  intro fuel
  induction fuel with
  | zero =>
    intro s hs
    have hnil : s = [] := List.eq_nil_of_length_eq_zero (Nat.le_zero.mp hs)
    subst hnil
    rfl
  | succ fuel ih =>
    intro s hs
    match s with
    | [] => rfl
    | c :: rest =>
      simp only [hardSliceAux, List.flatten_cons]
      rw [ih ((c :: rest).drop m) (by simp at hs ⊢; omega)]
      exact List.take_append_drop m (c :: rest)

/-- The hard slices reassemble to the input sentence. -/
theorem hardSlice_flatten {m : Nat} (hm : 0 < m) (s : List Char) :
    (hardSlice s m).flatten = s :=
  hardSliceAux_flatten m hm s.length s le_rfl

/-- Every hard slice has at most `m` characters. -/
theorem hardSlice_mem_length (m : Nat) :
    ∀ fuel s c, c ∈ hardSliceAux m fuel s → c.length ≤ m := by
  intro fuel
  induction fuel with
  | zero =>
    intro s c hc
    match s with
    | [] => simp [hardSliceAux] at hc
    | _ :: _ => simp [hardSliceAux] at hc
  | succ fuel ih =>
    intro s c hc
    match s with
    | [] => simp [hardSliceAux] at hc
    | d :: rest =>
      simp only [hardSliceAux, List.mem_cons] at hc
      rcases hc with h | h
      · subst h
        rw [List.length_take]
        omega
      · exact ih _ c h

/-- Hard-slicing a nonempty sentence yields at least one piece. -/
theorem hardSlice_ne_nil {s : List Char} (hs : s ≠ []) (m : Nat) :
    hardSlice s m ≠ [] := by
  match s with
  | [] => exact absurd rfl hs
  | c :: rest => simp [hardSlice, hardSliceAux]

theorem pushIfNonempty_flatten (xs : List (List Char)) (y : List Char) :
    (pushIfNonempty xs y).flatten = xs.flatten ++ y := by
  unfold pushIfNonempty
  split
  · simp
  · rename_i h
    have hy : y = [] := by
      have := Nat.le_zero.mp (Nat.not_lt.mp h)
      exact List.eq_nil_of_length_eq_zero this
    subst hy
    simp

theorem pushIfNonempty_mem {xs : List (List Char)} {y c : List Char}
    (h : c ∈ pushIfNonempty xs y) : c ∈ xs ∨ c = y := by
  unfold pushIfNonempty at h
  split at h
  · rcases List.mem_append.mp h with h | h
    · exact Or.inl h
    · exact Or.inr (List.mem_singleton.mp h)
  · exact Or.inl h

theorem pushIfNonempty_ne_nil_left {xs : List (List Char)} (h : xs ≠ []) (y : List Char) :
    pushIfNonempty xs y ≠ [] := by
  unfold pushIfNonempty
  split
  · simp
  · exact h

theorem pushIfNonempty_ne_nil_right (xs : List (List Char)) {y : List Char} (h : y ≠ []) :
    pushIfNonempty xs y ≠ [] := by
  unfold pushIfNonempty
  rw [if_pos (by simpa [List.length_pos] using h)]
  simp

theorem pushIfNonempty_nil_right (xs : List (List Char)) : pushIfNonempty xs [] = xs := by
  unfold pushIfNonempty
  simp

theorem nsp_space_single : nsp [' '] = [] := rfl

theorem nsp_two_nl : nsp ['\n', '\n'] = [] := rfl

/-- One sentence step keeps every emitted chunk at most `m + 2` characters
long and the running sentence chunk at most `m + 1` characters long. -/
theorem procSent_bound {m : Nat} {st : List (List Char) × List Char} (sentence : List Char)
    (h1 : ∀ c ∈ st.1, c.length ≤ m + 2) (h2 : st.2.length ≤ m + 1) :
    (∀ c ∈ (procSent m st sentence).1, c.length ≤ m + 2) ∧
    (procSent m st sentence).2.length ≤ m + 1 := by
  unfold procSent
  by_cases hov : st.2.length + sentence.length + 1 > m
  · rw [if_pos hov]
    by_cases hbig : sentence.length > m
    · rw [if_pos hbig]
      refine ⟨?_, by simp⟩
      intro c hc
      rcases List.mem_append.mp hc with h | h
      · rcases pushIfNonempty_mem h with h | h
        · exact h1 c h
        · rw [h]; omega
      · have := hardSlice_mem_length m sentence.length sentence c h
        omega
    · rw [if_neg hbig]
      refine ⟨?_, ?_⟩
      · intro c hc
        rcases List.mem_append.mp hc with h | h
        · exact h1 c h
        · rw [List.mem_singleton.mp h]; omega
      · simp only [List.length_append, List.length_cons, List.length_nil]
        omega
  · rw [if_neg hov]
    refine ⟨h1, ?_⟩
    simp only [List.length_append, List.length_cons, List.length_nil]
    omega

/-- The sentence loop keeps every emitted chunk at most `m + 2` characters
long and the running sentence chunk at most `m + 1` characters long. -/
theorem foldl_procSent_bound (m : Nat) :
    ∀ (l : List (List Char)) (st : List (List Char) × List Char),
      (∀ c ∈ st.1, c.length ≤ m + 2) → st.2.length ≤ m + 1 →
      (∀ c ∈ (l.foldl (procSent m) st).1, c.length ≤ m + 2) ∧
      (l.foldl (procSent m) st).2.length ≤ m + 1 := by
  intro l
  induction l with
  | nil => intro st h1 h2; exact ⟨h1, h2⟩
  | cons s rest ih =>
    intro st h1 h2
    rw [List.foldl_cons]
    have h := procSent_bound s h1 h2
    exact ih _ h.1 h.2

/-- One paragraph step keeps every emitted chunk at most `m + 2` characters
long and the running chunk at most `m + 2` characters long. -/
theorem procPara_bound {m : Nat} {st : List (List Char) × List Char} (para : List Char)
    (h1 : ∀ c ∈ st.1, c.length ≤ m + 2) (h2 : st.2.length ≤ m + 2) :
    (∀ c ∈ (procPara m st para).1, c.length ≤ m + 2) ∧
    (procPara m st para).2.length ≤ m + 2 := by
  unfold procPara
  by_cases hov : st.2.length + para.length + 2 > m
  · rw [if_pos hov]
    by_cases hbig : para.length > m
    · rw [if_pos hbig]
      have hinit : ∀ c ∈ pushIfNonempty st.1 st.2, c.length ≤ m + 2 := by
        intro c hc
        rcases pushIfNonempty_mem hc with h | h
        · exact h1 c h
        · rw [h]; exact h2
      have hr := foldl_procSent_bound m (splitSent para)
        (pushIfNonempty st.1 st.2, []) hinit (by simp)
      refine ⟨?_, by simp⟩
      intro c hc
      rcases pushIfNonempty_mem hc with h | h
      · exact hr.1 c h
      · rw [h]; have := hr.2; omega
    · rw [if_neg hbig]
      refine ⟨?_, ?_⟩
      · intro c hc
        rcases List.mem_append.mp hc with h | h
        · exact h1 c h
        · rw [List.mem_singleton.mp h]; exact h2
      · simp only [List.length_append, List.length_cons, List.length_nil]
        omega
  · rw [if_neg hov]
    refine ⟨h1, ?_⟩
    simp only [List.length_append, List.length_cons, List.length_nil]
    omega

/-- The paragraph loop keeps every emitted chunk at most `m + 2` characters
long and the running chunk at most `m + 2` characters long. -/
theorem foldl_procPara_bound (m : Nat) :
    ∀ (l : List (List Char)) (st : List (List Char) × List Char),
      (∀ c ∈ st.1, c.length ≤ m + 2) → st.2.length ≤ m + 2 →
      (∀ c ∈ (l.foldl (procPara m) st).1, c.length ≤ m + 2) ∧
      (l.foldl (procPara m) st).2.length ≤ m + 2 := by
  intro l
  induction l with
  | nil => intro st h1 h2; exact ⟨h1, h2⟩
  | cons p rest ih =>
    intro st h1 h2
    rw [List.foldl_cons]
    have h := procPara_bound p h1 h2
    exact ih _ h.1 h.2

/-- One sentence step preserves the accumulated non-whitespace content,
adding exactly the sentence processed. -/
theorem procSent_nsp {m : Nat} (hm : 0 < m) (st : List (List Char) × List Char)
    (sentence : List Char) :
    nsp ((procSent m st sentence).1.flatten ++ (procSent m st sentence).2) =
      nsp (st.1.flatten ++ st.2) ++ nsp sentence := by
  unfold procSent
  by_cases hov : st.2.length + sentence.length + 1 > m
  · rw [if_pos hov]
    by_cases hbig : sentence.length > m
    · rw [if_pos hbig]
      simp [pushIfNonempty_flatten, hardSlice_flatten hm, nsp_append]
    · rw [if_neg hbig]
      simp [nsp_append, nsp_space_single]
  · rw [if_neg hov]
    simp [nsp_append, nsp_space_single]

/-- The sentence loop preserves the accumulated non-whitespace content, adding
exactly the sentences processed. -/
theorem foldl_procSent_nsp {m : Nat} (hm : 0 < m) :
    ∀ (l : List (List Char)) (st : List (List Char) × List Char),
      nsp ((l.foldl (procSent m) st).1.flatten ++ (l.foldl (procSent m) st).2) =
        nsp (st.1.flatten ++ st.2) ++ nsp l.flatten := by
  intro l
  induction l with
  | nil => intro st; simp [nsp_nil]
  | cons s rest ih =>
    intro st
    rw [List.foldl_cons, ih (procSent m st s), procSent_nsp hm, List.flatten_cons]
    simp [nsp_append]

/-- One paragraph step preserves the accumulated non-whitespace content,
adding exactly the paragraph processed. -/
theorem procPara_nsp {m : Nat} (hm : 0 < m) (st : List (List Char) × List Char)
    (para : List Char) :
    nsp ((procPara m st para).1.flatten ++ (procPara m st para).2) =
      nsp (st.1.flatten ++ st.2) ++ nsp para := by
  unfold procPara
  by_cases hov : st.2.length + para.length + 2 > m
  · rw [if_pos hov]
    by_cases hbig : para.length > m
    · rw [if_pos hbig]
      have hfold := foldl_procSent_nsp hm (splitSent para) (pushIfNonempty st.1 st.2, [])
      simp only [List.append_nil, pushIfNonempty_flatten] at hfold ⊢
      rw [hfold, splitSent_nsp]
    · rw [if_neg hbig]
      simp [nsp_append, nsp_two_nl]
  · rw [if_neg hov]
    simp [nsp_append, nsp_two_nl]

/-- The paragraph loop preserves the accumulated non-whitespace content,
adding exactly the paragraphs processed. -/
theorem foldl_procPara_nsp {m : Nat} (hm : 0 < m) :
    ∀ (l : List (List Char)) (st : List (List Char) × List Char),
      nsp ((l.foldl (procPara m) st).1.flatten ++ (l.foldl (procPara m) st).2) =
        nsp (st.1.flatten ++ st.2) ++ nsp l.flatten := by
  intro l
  induction l with
  | nil => intro st; simp [nsp_nil]
  | cons p rest ih =>
    intro st
    rw [List.foldl_cons, ih (procPara m st p), procPara_nsp hm, List.flatten_cons]
    simp [nsp_append]

/-- After one sentence step, the emitted chunks or the running sentence chunk
are nonempty. -/
theorem procSent_progress (m : Nat) (st : List (List Char) × List Char)
    (sentence : List Char) :
    (procSent m st sentence).1 ≠ [] ∨ (procSent m st sentence).2 ≠ [] := by
  unfold procSent
  by_cases hov : st.2.length + sentence.length + 1 > m
  · rw [if_pos hov]
    by_cases hbig : sentence.length > m
    · rw [if_pos hbig]
      left
      intro hnil
      rcases List.append_eq_nil.mp hnil with ⟨-, h⟩
      exact hardSlice_ne_nil (by intro hs; rw [hs] at hbig; simp at hbig) m h
    · rw [if_neg hbig]
      left
      intro hnil
      rcases List.append_eq_nil.mp hnil with ⟨-, h⟩
      simp at h
  · rw [if_neg hov]
    right
    intro hnil
    rcases List.append_eq_nil.mp hnil with ⟨-, h⟩
    rcases List.append_eq_nil.mp h with ⟨-, h⟩
    simp at h

/-- After the sentence loop runs on at least one sentence, the emitted chunks
or the running sentence chunk are nonempty. -/
theorem foldl_procSent_progress (m : Nat) :
    ∀ (l : List (List Char)) (st : List (List Char) × List Char), l ≠ [] →
      (l.foldl (procSent m) st).1 ≠ [] ∨ (l.foldl (procSent m) st).2 ≠ [] := by
  intro l
  induction l with
  | nil => intro st h; exact absurd rfl h
  | cons s rest ih =>
    intro st _
    rw [List.foldl_cons]
    match rest with
    | [] => exact procSent_progress m st s
    | r :: rs => exact ih _ (by simp)

theorem pushIfNonempty_of_progress {st : List (List Char) × List Char}
    (h : st.1 ≠ [] ∨ st.2 ≠ []) : pushIfNonempty st.1 st.2 ≠ [] := by
  rcases h with h | h
  · exact pushIfNonempty_ne_nil_left h _
  · exact pushIfNonempty_ne_nil_right _ h

/-- After one paragraph step, the emitted chunks or the running chunk are
nonempty. -/
theorem procPara_progress (m : Nat) (st : List (List Char) × List Char)
    (para : List Char) :
    (procPara m st para).1 ≠ [] ∨ (procPara m st para).2 ≠ [] := by
  unfold procPara
  by_cases hov : st.2.length + para.length + 2 > m
  · rw [if_pos hov]
    by_cases hbig : para.length > m
    · rw [if_pos hbig]
      left
      exact pushIfNonempty_of_progress
        (foldl_procSent_progress m (splitSent para) _ (splitSent_ne_nil para))
    · rw [if_neg hbig]
      left
      intro hnil
      rcases List.append_eq_nil.mp hnil with ⟨-, h⟩
      simp at h
  · rw [if_neg hov]
    right
    intro hnil
    rcases List.append_eq_nil.mp hnil with ⟨-, h⟩
    rcases List.append_eq_nil.mp h with ⟨-, h⟩
    simp at h

/-- After the paragraph loop runs on at least one paragraph, the emitted
chunks or the running chunk are nonempty. -/
theorem foldl_procPara_progress (m : Nat) :
    ∀ (l : List (List Char)) (st : List (List Char) × List Char), l ≠ [] →
      (l.foldl (procPara m) st).1 ≠ [] ∨ (l.foldl (procPara m) st).2 ≠ [] := by
  intro l
  induction l with
  | nil => intro st h; exact absurd rfl h
  | cons p rest ih =>
    intro st _
    rw [List.foldl_cons]
    match rest with
    | [] => exact procPara_progress m st p
    | r :: rs => exact ih _ (by simp)

/-- Claim C1, counterexample: for `content = "aaaaa\n\nbbbbb"` and
`maxChunkSize = 5`, every paragraph (hence every indivisible token) has length
at most 5, yet `chunkContent` emits a chunk of length 7 (`"aaaaa\n\n"`): the
appended `\n\n` separator pushes a chunk past the bound even though no single
indivisible token exceeds it, so "every element has length at most
maxChunkSize except elements arising from an oversized indivisible token" is
false as stated. -/
theorem chunkContent_bound_cex :
    (∀ p ∈ splitParas "aaaaa\n\nbbbbb".toList, p.length ≤ 5) ∧
    ∃ c ∈ chunkContent "aaaaa\n\nbbbbb".toList 5, 5 < c.length := by decide

/-- Claim C1, amended: for every input and every positive `maxChunkSize`,
every chunk produced by `chunkContent` has length at most `maxChunkSize + 2`
(the appended sentence separator adds up to 1 character and the appended
paragraph separator up to 2), and the pieces produced by hard-slicing an
oversized indivisible run are exactly bounded by `maxChunkSize`. -/
theorem chunkContent_chunk_length_bound (content : List Char) (m : Nat) (hm : 0 < m) :
    (∀ c ∈ chunkContent content m, c.length ≤ m + 2) ∧
    (∀ s c, c ∈ hardSlice s m → c.length ≤ m) := by
  constructor
  · unfold chunkContent
    by_cases hle : content.length ≤ m
    · rw [if_pos hle]
      intro c hc
      rw [List.mem_singleton.mp hc]
      omega
    · rw [if_neg hle]
      intro c hc
      have hb := foldl_procPara_bound m (splitParas content) ([], []) (by simp) (by simp)
      rcases pushIfNonempty_mem hc with h | h
      · exact hb.1 c h
      · rw [h]; exact hb.2
  · intro s c hc
    exact hardSlice_mem_length m s.length s c hc

/-- Witness for C1 at `maxChunkSize = 5` and the counterexample input. -/
theorem chunkContent_chunk_length_bound_witness :
    0 < 5 ∧ ∀ c ∈ chunkContent "aaaaa\n\nbbbbb".toList 5, c.length ≤ 5 + 2 :=
  ⟨by decide, (chunkContent_chunk_length_bound "aaaaa\n\nbbbbb".toList 5 (by decide)).1⟩

/-- Claim C2: for every input and every positive `maxChunkSize`, concatenating
the chunks returned by `chunkContent` reproduces the original text modulo
whitespace: the non-whitespace characters of the concatenation are exactly
those of the input, in order — nothing is dropped, duplicated or reordered
other than the whitespace collapsed by the paragraph/sentence splitters and
the whitespace inserted as chunk separators. -/
theorem chunkContent_preserves_content (content : List Char) (m : Nat) (hm : 0 < m) :
    nsp (chunkContent content m).flatten = nsp content := by
  unfold chunkContent
  by_cases hle : content.length ≤ m
  · rw [if_pos hle]
    simp
  · rw [if_neg hle]
    rw [pushIfNonempty_flatten]
    rw [foldl_procPara_nsp hm (splitParas content) ([], [])]
    simp [nsp_nil, splitParas_nsp]

/-- Witness for C2 at `maxChunkSize = 5` and a two-paragraph input. -/
theorem chunkContent_preserves_content_witness :
    0 < 5 ∧
    nsp (chunkContent "aaaaa\n\nbbbbb".toList 5).flatten = nsp "aaaaa\n\nbbbbb".toList :=
  ⟨by decide, chunkContent_preserves_content "aaaaa\n\nbbbbb".toList 5 (by decide)⟩

/-- Claim C3: a text whose length is at most `maxChunkSize` is returned as the
single-element sequence containing exactly the input, unmodified. -/
theorem chunkContent_small (content : List Char) (m : Nat) (h : content.length ≤ m) :
    chunkContent content m = [content] := by
  unfold chunkContent
  rw [if_pos h]

/-- Witness for C3 at a 3-character input and `maxChunkSize = 10`. -/
theorem chunkContent_small_witness :
    ("abc".toList.length ≤ 10) ∧ chunkContent "abc".toList 10 = ["abc".toList] :=
  ⟨by decide, chunkContent_small "abc".toList 10 (by decide)⟩

/-- Claim C10: for every input (including the empty string) and every positive
`maxChunkSize`, `chunkContent` returns at least one chunk. -/
theorem chunkContent_ne_nil (content : List Char) (m : Nat) (hm : 0 < m) :
    chunkContent content m ≠ [] := by
  unfold chunkContent
  by_cases hle : content.length ≤ m
  · rw [if_pos hle]
    simp
  · rw [if_neg hle]
    exact pushIfNonempty_of_progress
      (foldl_procPara_progress m (splitParas content) ([], []) (splitParas_ne_nil content))

/-- Witness for C10 at the empty input and `maxChunkSize = 5`. -/
theorem chunkContent_ne_nil_witness :
    0 < 5 ∧ chunkContent [] 5 ≠ [] :=
  ⟨by decide, chunkContent_ne_nil [] 5 (by decide)⟩

/-- Claim C7: the sampling policy of `detectLanguage` — texts of length at
most 1000 are passed whole; texts of length in (1000, 2000] are truncated to
their first 1000 characters; texts longer than 2000 characters are sampled as
first 600 characters, a 600-character window centred at the midpoint
(characters `len/2 - 300` through `len/2 + 300`), and the last 600
characters, joined with single spaces. -/
theorem detectLanguage_sampling (t : List Char) :
    (t.length ≤ 1000 → detectLanguageSample t = t) ∧
    (1000 < t.length → t.length ≤ 2000 →
      detectLanguageSample t = t.take 1000 ∧ (detectLanguageSample t).length = 1000) ∧
    (2000 < t.length →
      detectLanguageSample t =
        t.take 600 ++
          ' ' :: ((t.drop (t.length / 2 - 300)).take 600 ++
            ' ' :: t.drop (t.length - 600)) ∧
      (t.take 600).length = 600 ∧
      ((t.drop (t.length / 2 - 300)).take 600).length = 600 ∧
      (t.drop (t.length - 600)).length = 600) := by
  refine ⟨?_, ?_, ?_⟩
  · intro h
    unfold detectLanguageSample
    rw [if_neg (by omega), if_neg (by omega)]
  · intro h1 h2
    unfold detectLanguageSample
    rw [if_neg (by omega), if_pos (by omega)]
    refine ⟨rfl, ?_⟩
    rw [List.length_take]
    omega
  · intro h
    unfold detectLanguageSample
    rw [if_pos (by omega)]
    refine ⟨rfl, ?_, ?_, ?_⟩
    · rw [List.length_take]; omega
    · rw [List.length_take, List.length_drop]; omega
    · rw [List.length_drop]; omega

/-- Witness for C7: one concrete input in each of the three sampling
regimes. -/
theorem detectLanguage_sampling_witness :
    ((List.replicate 500 'a').length ≤ 1000 ∧
      detectLanguageSample (List.replicate 500 'a') = List.replicate 500 'a') ∧
    (1000 < (List.replicate 1500 'a').length ∧
      detectLanguageSample (List.replicate 1500 'a') = (List.replicate 1500 'a').take 1000) ∧
    (2000 < (List.replicate 2500 'a').length ∧
      detectLanguageSample (List.replicate 2500 'a') =
        (List.replicate 2500 'a').take 600 ++
          ' ' :: (((List.replicate 2500 'a').drop ((List.replicate 2500 'a').length / 2 - 300)).take 600 ++
            ' ' :: (List.replicate 2500 'a').drop ((List.replicate 2500 'a').length - 600))) :=
  ⟨⟨by rw [List.length_replicate]; norm_num,
    (detectLanguage_sampling _).1 (by rw [List.length_replicate]; norm_num)⟩,
   ⟨by rw [List.length_replicate]; norm_num,
    ((detectLanguage_sampling _).2.1 (by rw [List.length_replicate]; norm_num)
      (by rw [List.length_replicate]; norm_num)).1⟩,
   ⟨by rw [List.length_replicate]; norm_num,
    ((detectLanguage_sampling _).2.2 (by rw [List.length_replicate]; norm_num)).1⟩⟩

/-- Claim C5: when the structured PDF parse throws at top level, the function
returns a string either way (the catch never re-raises): either the byte-scan
fallback text with an explanatory note appended, or a descriptive error text;
and whenever the fallback recovers at least 100 characters of trimmed text,
the recovered text (with the note appended) is what is returned, never the
error message. -/
theorem extractTextFromPdfOnError_spec (errMsg basicText : List Char) :
    (extractTextFromPdfOnError errMsg basicText = basicText ++ pdfFallbackNote ∨
     extractTextFromPdfOnError errMsg basicText = pdfUnableMsg errMsg) ∧
    (100 ≤ (jsTrim basicText).length →
      extractTextFromPdfOnError errMsg basicText = basicText ++ pdfFallbackNote) := by
  constructor
  · unfold extractTextFromPdfOnError
    by_cases h : basicText ≠ [] ∧ 50 < (jsTrim basicText).length
    · rw [if_pos h]; exact Or.inl rfl
    · rw [if_neg h]; exact Or.inr rfl
  · intro h
    unfold extractTextFromPdfOnError
    have hne : basicText ≠ [] := by
      intro hnil
      rw [hnil] at h
      simp [jsTrim] at h
    rw [if_pos ⟨hne, by omega⟩]

/-- Witness for C5: a 100-character fallback text is returned with the note
appended. -/
theorem extractTextFromPdfOnError_witness :
    100 ≤ (jsTrim (List.replicate 100 'x')).length ∧
    extractTextFromPdfOnError "boom".toList (List.replicate 100 'x') =
      List.replicate 100 'x' ++ pdfFallbackNote :=
  ⟨by decide, (extractTextFromPdfOnError_spec "boom".toList _).2 (by decide)⟩

theorem pdfPagesText_append (numPages start : Nat) (xs ys : List PageOutcome) :
    pdfPagesText numPages start (xs ++ ys) =
      pdfPagesText numPages start xs ++ pdfPagesText numPages (start + xs.length) ys := by
  induction xs generalizing start with
  | nil => simp [pdfPagesText]
  | cons p rest ih =>
    rw [List.cons_append]
    rw [show pdfPagesText numPages start (p :: (rest ++ ys)) =
        pdfPageRender numPages start p ++ pdfPagesText numPages (start + 1) (rest ++ ys)
      from rfl]
    rw [show pdfPagesText numPages start (p :: rest) =
        pdfPageRender numPages start p ++ pdfPagesText numPages (start + 1) rest from rfl]
    rw [ih (start + 1), List.append_assoc]
    have he : start + 1 + rest.length = start + (p :: rest).length := by
      rw [List.length_cons]; omega
    rw [he]

/-- Claim C6 (amended): for EVERY failing page — whatever its retry outcome —
the document text records the `[Error extracting text from page N]`
placeholder at that page's position (N = `start + pre.length`) and processing
continues with the remaining pages; the retry contributes exactly
`pdfRetryRender`: when it yields text longer than 20 characters, the
`[Recovered text from page N]` block is appended after — not replacing — the
placeholder, and when the retry itself fails or yields 20 characters or
fewer, nothing is appended and the placeholder stands alone. -/
theorem pdf_failed_page_placeholder_and_recovery (numPages start : Nat)
    (pre post : List PageOutcome) (fb : Option (List (List Char))) :
    (pdfPagesText numPages start (pre ++ PageOutcome.failure fb :: post) =
      pdfPagesText numPages start pre ++
      ("[Error extracting text from page ".toList ++
        (Nat.repr (start + pre.length)).toList ++ "]\n\n".toList) ++
      pdfRetryRender (start + pre.length) fb ++
      pdfPagesText numPages (start + pre.length + 1) post) ∧
    (∀ items : List (List Char), 20 < (joinSpace items).length →
      pdfRetryRender (start + pre.length) (some items) =
        "[Recovered text from page ".toList ++ (Nat.repr (start + pre.length)).toList ++
          "]\n".toList ++ joinSpace items ++ "\n\n".toList) ∧
    (∀ items : List (List Char), (joinSpace items).length ≤ 20 →
      pdfRetryRender (start + pre.length) (some items) = []) ∧
    pdfRetryRender (start + pre.length) none = [] := by
  refine ⟨?_, ?_, ?_, rfl⟩
  · rw [pdfPagesText_append]
    rw [show pdfPagesText numPages (start + pre.length)
          (PageOutcome.failure fb :: post) =
        pdfPageRender numPages (start + pre.length) (PageOutcome.failure fb) ++
          pdfPagesText numPages (start + pre.length + 1) post from rfl]
    rw [show pdfPageRender numPages (start + pre.length) (PageOutcome.failure fb) =
        "[Error extracting text from page ".toList ++
          (Nat.repr (start + pre.length)).toList ++ "]\n\n".toList ++
        pdfRetryRender (start + pre.length) fb from rfl]
    simp [List.append_assoc]
  · intro items h
    rw [show pdfRetryRender (start + pre.length) (some items) =
        (if joinSpace items ≠ [] ∧ (joinSpace items).length > 20 then
          "[Recovered text from page ".toList ++
            (Nat.repr (start + pre.length)).toList ++ "]\n".toList ++
            joinSpace items ++ "\n\n".toList
         else []) from rfl]
    rw [if_pos ⟨List.length_pos.mp (by omega), h⟩]
  · intro items h
    rw [show pdfRetryRender (start + pre.length) (some items) =
        (if joinSpace items ≠ [] ∧ (joinSpace items).length > 20 then
          "[Recovered text from page ".toList ++
            (Nat.repr (start + pre.length)).toList ++ "]\n".toList ++
            joinSpace items ++ "\n\n".toList
         else []) from rfl]
    rw [if_neg (fun hc => absurd hc.2 (by omega))]

/-- Witness for C6: a failing page whose retry recovers 25 characters (the
placeholder is followed by the recovered block), a failing page whose retry
itself fails (the placeholder stands alone) followed by a further page that
is still processed, and a failing page whose retry yields only 5 characters
(the placeholder stands alone). -/
theorem pdf_failed_page_placeholder_and_recovery_witness :
    (20 < (joinSpace ["abcdefghijklmnopqrstuvwxy".toList]).length ∧
      pdfPagesText 1 1 [PageOutcome.failure (some ["abcdefghijklmnopqrstuvwxy".toList])] =
        ("[Error extracting text from page 1]\n\n" ++
          "[Recovered text from page 1]\nabcdefghijklmnopqrstuvwxy\n\n").toList) ∧
    pdfPagesText 2 1
        [PageOutcome.failure none, PageOutcome.success ["next page text".toList]] =
      ("[Error extracting text from page 1]\n\n" ++
        "[Page 2]\nnext page text\n\n").toList ∧
    ((joinSpace ["short".toList]).length ≤ 20 ∧
      pdfPagesText 1 1 [PageOutcome.failure (some ["short".toList])] =
        "[Error extracting text from page 1]\n\n".toList) := by
  refine ⟨⟨by decide, ?_⟩, ?_, by decide, ?_⟩
  · have h := pdf_failed_page_placeholder_and_recovery 1 1 [] []
      (some ["abcdefghijklmnopqrstuvwxy".toList])
    have e := h.1
    rw [h.2.1 ["abcdefghijklmnopqrstuvwxy".toList] (by decide)] at e
    exact e.trans (by decide)
  · have h := pdf_failed_page_placeholder_and_recovery 2 1 []
      [PageOutcome.success ["next page text".toList]] none
    have e := h.1
    rw [h.2.2.2] at e
    exact e.trans (by decide)
  · have h := pdf_failed_page_placeholder_and_recovery 1 1 [] [] (some ["short".toList])
    have e := h.1
    rw [h.2.2.1 ["short".toList] (by decide)] at e
    exact e.trans (by decide)


/-- Claim C6, counterexample: for a one-page document whose page fails and
whose retry recovers 25 characters, the `[Error extracting text from page 1]`
placeholder is still present in the result alongside the
`[Recovered text from page 1]` block — the recovered text is appended after
the placeholder, it does not replace it as the claim states. -/
theorem pdf_recovery_keeps_placeholder_cex :
    ("[Error extracting text from page 1]".toList <:+:
      pdfPagesText 1 1 [PageOutcome.failure (some ["abcdefghijklmnopqrstuvwxy".toList])]) ∧
    ("[Recovered text from page 1]".toList <:+:
      pdfPagesText 1 1 [PageOutcome.failure (some ["abcdefghijklmnopqrstuvwxy".toList])]) := by
  decide

/-- Claim C8, counterexample: a file one byte over `MAX_FILE_SIZE` is rejected
with the size error before any format dispatch, contradicting "the dispatcher
does not itself enforce any maximum file size". -/
theorem dispatch_oversize_cex :
    extractTextFromFileRoute
        ⟨MAX_FILE_SIZE + 1, "text/plain".toList, "a.txt".toList⟩ =
      DispatchStep.oversizeError "File size exceeds maximum allowed size (50MB)".toList := by
  rfl

/-- Claim C8 (amended): the dispatcher itself enforces a 50MB cap — a file
whose declared size exceeds `MAX_FILE_SIZE` (52428800 bytes) raises the size
error before format dispatch, and any file at or under the cap proceeds to
format dispatch. -/
theorem dispatch_size_gate (f : FileMeta) :
    (MAX_FILE_SIZE < f.size →
      extractTextFromFileRoute f =
        DispatchStep.oversizeError "File size exceeds maximum allowed size (50MB)".toList) ∧
    (f.size ≤ MAX_FILE_SIZE →
      extractTextFromFileRoute f =
        DispatchStep.routed (selectRoute f.mimeType (fileExtension f.name))) := by
  constructor
  · intro h
    unfold extractTextFromFileRoute
    rw [if_pos h]
  · intro h
    unfold extractTextFromFileRoute
    rw [if_neg (by omega)]

/-- Witness for C8: an oversize file is rejected, a small CSV file is routed
to the CSV extractor. -/
theorem dispatch_size_gate_witness :
    (MAX_FILE_SIZE < MAX_FILE_SIZE + 1 ∧
      extractTextFromFileRoute ⟨MAX_FILE_SIZE + 1, [], "b.pdf".toList⟩ =
        DispatchStep.oversizeError "File size exceeds maximum allowed size (50MB)".toList) ∧
    ((100 : Nat) ≤ MAX_FILE_SIZE ∧
      extractTextFromFileRoute ⟨100, "text/csv".toList, "data.csv".toList⟩ =
        DispatchStep.routed Route.csv) :=
  ⟨⟨by omega, (dispatch_size_gate _).1 (by show MAX_FILE_SIZE < MAX_FILE_SIZE + 1; omega)⟩,
   ⟨by norm_num [MAX_FILE_SIZE],
    ((dispatch_size_gate _).2
      (by show (100 : Nat) ≤ MAX_FILE_SIZE; norm_num [MAX_FILE_SIZE])).trans (by decide)⟩⟩

/-- Claim C4, counterexample: a JSON file whose text fails to parse (a
`SyntaxError` from `JSON.parse`, modelled by the `none` input) makes the
extraction RETURN a successful text result carrying the descriptive message —
it does not raise, contradicting "extraction raises a typed error ... rather
than returning a text result" for the JSON case. -/
theorem json_syntax_error_returns_text_cex :
    extractJsonResult none =
      Except.ok "The JSON file contains syntax errors and could not be parsed.".toList := by
  rfl

/-- Claim C4 (amended): a DOCX whose internal extraction fails and a CSV whose
parser fails entirely raise typed errors carrying user-facing messages, but a
JSON file whose text fails to parse returns a descriptive text result instead
of raising. -/
theorem structured_format_failure_behavior :
    extractFromDocx none =
      Except.error
        "Failed to extract text from DOCX file. The file may be corrupted or incompatible.".toList ∧
    (∀ msg : List Char, extractFromCsv (Except.error msg) =
      Except.error ("Failed to parse CSV file: ".toList ++ msg)) ∧
    extractJsonResult none =
      Except.ok "The JSON file contains syntax errors and could not be parsed.".toList :=
  ⟨rfl, fun _ => rfl, rfl⟩

/-- Claim C9 (amended): extracting a JSON array of 7 items lists exactly the
first 5 items expanded, followed by the line `"... and 2 more items"` — with
a space between the ellipsis and "and", unlike the claim's quoted
`"...and 2 more items"`. -/
theorem extractFromJson_seven_item_array (items : List Json) (h : items.length = 7) :
    extractFromJson (some (Json.arr items)) =
      "JSON Array with 7 items:\n\n".toList ++
      renderJsonItems 1 (items.take 5) ++
      "... and 2 more items\n".toList := by
  have hstep : extractFromJson (some (Json.arr items)) =
      "JSON Array with ".toList ++ (Nat.repr items.length).toList ++ " items:\n\n".toList ++
      renderJsonItems 1 (items.take 5) ++
      (if items.length > 5 then
        "... and ".toList ++ (Nat.repr (items.length - 5)).toList ++ " more items\n".toList
       else []) := rfl
  rw [hstep, h, if_pos (by omega)]
  rw [show "... and ".toList ++ (Nat.repr (7 - 5)).toList ++ " more items\n".toList =
      "... and 2 more items\n".toList from by decide]
  rw [show "JSON Array with ".toList ++ (Nat.repr 7).toList ++ " items:\n\n".toList =
      "JSON Array with 7 items:\n\n".toList from by decide]

/-- Witness for C9 at a concrete seven-object array, fully evaluated. -/
theorem extractFromJson_seven_item_array_witness :
    jsonSevenDemo.length = 7 ∧
    extractFromJson (some (Json.arr jsonSevenDemo)) =
      ("JSON Array with 7 items:\n\n" ++
       "Item 1:\n  a: 1\n\n" ++ "Item 2:\n  a: 2\n\n" ++ "Item 3:\n  a: 3\n\n" ++
       "Item 4:\n  a: 4\n\n" ++ "Item 5:\n  a: 5\n\n" ++
       "... and 2 more items\n").toList :=
  ⟨by decide,
   (extractFromJson_seven_item_array jsonSevenDemo (by decide)).trans (by decide)⟩

/-- Claim C9, counterexample: for a concrete array of 7 objects the extracted
text contains the line `"... and 2 more items"` (space after the ellipsis, as
written in the source template) and does NOT contain the claim's quoted line
`"...and 2 more items"`. -/
theorem json_more_items_line_cex :
    ("... and 2 more items".toList <:+:
      extractFromJson (some (Json.arr jsonSevenDemo))) ∧
    ¬ ("...and 2 more items".toList <:+:
      extractFromJson (some (Json.arr jsonSevenDemo))) := by
  decide
